import Mathlib

/-!
# Verification of the svelte-persistent-store core

A shallow embedding, in Lean 4, of the persistent-store library:

* `src/utils.ts` — semver comparison (`semverCompare`, `semverOrd`),
  `getLatestSemver`, `getLatestSchemaVersion`, `parseSchema`,
  `matchesSchema`, and the schema-history `migrate` resolver;
* `src/persistent.ts` — the store lifecycle controller (`save` = the
  store's `set`, and `load`).

The TypeScript code delegates raw semver validity and precedence to the
`semver` npm package; those two leaf functions are modelled here from the
semantic-versioning standard (major.minor.patch, optional dot-separated
pre-release identifiers, optional build metadata that is ignored by
precedence, numeric identifiers compared numerically and below
alphanumeric ones, a shorter pre-release list below its extensions, and a
version without pre-release above one with it).  Zod validators, the
localforage storage capability and the svelte writable are opaque
collaborators: a validator is an arbitrary function `Value → Option Value`
(`safeParse`: `some parsed` on success), storage is an association list of
keys to values, and subscriber notification is recorded as an event.
Asynchronous effects (`setItem(..).then(..)`) are modelled by the order of
the events a call appends.
-/

namespace PStore

/-! ## Semantic versions (model of the `semver` package's `valid`/`gt`/`lt`) -/

/-- A pre-release identifier: numeric identifiers order below alphanumeric
ones, numerically among themselves; alphanumeric ones order lexically by
character. `Lex (Nat ⊕ List Char)` has exactly this order. -/
abbrev SemIdent := Lex (Nat ⊕ List Char)

/-- Precedence key of a version: major, minor, patch lexicographically,
then the pre-release part, where *no* pre-release (`isEmpty = true`)
ranks above any pre-release (`false < true` on `Bool`), and pre-release
lists compare lexicographically with a strict prefix ranking lower. -/
abbrev SemKey := Lex (Nat × Lex (Nat × Lex (Nat × Lex (Bool × List SemIdent))))

/-- A parsed semantic version. `build` is metadata: it participates in
validity but not in precedence. -/
structure SemVer where
  major : Nat
  minor : Nat
  patch : Nat
  pre : List SemIdent
  build : List (List Char)
deriving DecidableEq

/-- The precedence key of a version (build metadata ignored). -/
def SemVer.key (v : SemVer) : SemKey :=
  toLex (v.major, toLex (v.minor, toLex (v.patch, toLex (v.pre.isEmpty, v.pre))))

/-- Numeric value of a digit character. -/
def digitVal (c : Char) : Nat := c.toNat - '0'.toNat

/-- Decimal reading of a digit list. -/
def digitsToNat (l : List Char) : Nat := l.foldl (fun n c => n * 10 + digitVal c) 0

/-- A non-empty all-digit identifier. -/
def isNumericIdent (l : List Char) : Bool := !l.isEmpty && l.all Char.isDigit

/-- Numeric fields and numeric pre-release identifiers may not have a
leading zero (`0` itself is fine). -/
def noLeadZero : List Char → Bool
  | '0' :: _ :: _ => false
  | _ => true

/-- Characters allowed in pre-release and build identifiers: `[0-9A-Za-z-]`. -/
def isIdentChar (c : Char) : Bool := c.isDigit || c.isAlpha || c == '-'

/-- major/minor/patch field: digits only, no leading zero. -/
def parseNumField (l : List Char) : Option Nat :=
  if isNumericIdent l && noLeadZero l then some (digitsToNat l) else none

/-- One pre-release identifier: numeric (no leading zero) or alphanumeric. -/
def parsePreIdent (l : List Char) : Option SemIdent :=
  if isNumericIdent l then
    if noLeadZero l then some (toLex (Sum.inl (digitsToNat l))) else none
  else if !l.isEmpty && l.all isIdentChar then some (toLex (Sum.inr l))
  else none

/-- One build-metadata identifier: non-empty, `[0-9A-Za-z-]` (leading
zeros allowed). -/
def parseBuildIdent (l : List Char) : Option (List Char) :=
  if !l.isEmpty && l.all isIdentChar then some l else none

/-- Split at the first occurrence of `sep`; `none` when `sep` is absent. -/
def breakAt (sep : Char) : List Char → List Char × Option (List Char)
  | [] => ([], none)
  | c :: cs =>
    if c == sep then ([], some cs)
    else
      let r := breakAt sep cs
      (c :: r.1, r.2)

/-- Split on every `'.'` (so `n` dots give `n + 1` fields, empty ones kept). -/
def splitDots : List Char → List (List Char)
  | [] => [[]]
  | c :: cs =>
    let r := splitDots cs
    if c == '.' then [] :: r
    else
      match r with
      | [] => [[c]]
      | h :: t => (c :: h) :: t

/-- Parse each piece, failing when any piece fails. -/
def mapOption {α : Type} (g : List Char → Option α) : List (List Char) → Option (List α)
  | [] => some []
  | x :: xs => do
    let a ← g x
    let r ← mapOption g xs
    pure (a :: r)

/-- Model of the `semver` package's strict grammar (an optional leading
`v` is accepted, as in the package's own regular expression):
`v? major . minor . patch (- pre-release)? (+ build)?`. -/
def parseSemver (s : String) : Option SemVer := do
  let chars :=
    match s.toList with
    | 'v' :: rest => rest
    | other => other
  let core := breakAt '+' chars
  let nums := breakAt '-' core.1
  match splitDots nums.1 with
  | [ma, mi, pa] => do
    let major ← parseNumField ma
    let minor ← parseNumField mi
    let patch ← parseNumField pa
    let pre ←
      match nums.2 with
      | none => pure []
      | some p => mapOption parsePreIdent (splitDots p)
    let build ←
      match core.2 with
      | none => pure []
      | some b => mapOption parseBuildIdent (splitDots b)
    pure ⟨major, minor, patch, pre, build⟩
  | _ => none

/-- Model of `semver`'s `valid`, as the code uses it: a Boolean test. -/
def semverValid (s : String) : Bool := (parseSemver s).isSome

/-- `semverCompare` from `src/utils.ts`: throw (`Except.error`) on either
invalid operand — `a` checked first — then `1` if `a` has higher
precedence (the package's `gt`), `-1` if lower (`lt`), else `0`. -/
def semverCompare (a b : String) : Except String Int :=
  match parseSemver a with
  | none => .error ("Invalid semver: " ++ a)
  | some va =>
    match parseSemver b with
    | none => .error ("Invalid semver: " ++ b)
    | some vb =>
      if vb.key < va.key then .ok 1
      else if va.key < vb.key then .ok (-1)
      else .ok 0

/-- `A.sort(semverOrd)`, insertion step: the comparison may throw, and the
throw propagates out of the sort.  `fp-ts`'s `A.sort` is a stable sort by
`semverOrd.compare`; an insertion sort placing each earlier element before
the equivalent later ones is one. -/
def insertSemverE (x : String) : List String → Except String (List String)
  | [] => .ok [x]
  | y :: ys =>
    match semverCompare x y with
    | .error e => .error e
    | .ok c =>
      if c ≤ 0 then .ok (x :: y :: ys)
      else
        match insertSemverE x ys with
        | .error e => .error e
        | .ok r => .ok (y :: r)

/-- `A.sort(semverOrd)` over a list of version strings. -/
def sortSemverE : List String → Except String (List String)
  | [] => .ok []
  | x :: xs =>
    match sortSemverE xs with
    | .error e => .error e
    | .ok s => insertSemverE x s

/-- `getLatestSemver` from `src/utils.ts`: sort ascending, take the last
element, fall back to the sentinel `"0.0.0"` on an empty input. -/
def getLatestSemver (versions : List String) : Except String String :=
  match sortSemverE versions with
  | .error e => .error e
  | .ok s => .ok ((s.getLast?).getD "0.0.0")

/-! ## Facts about the semver comparison -/

/-- Precedence key of a version string (junk value on an invalid string;
only ever used under a validity hypothesis). -/
def keyOf (s : String) : SemKey :=
  ((parseSemver s).map SemVer.key).getD (SemVer.key ⟨0, 0, 0, [], []⟩)

/-- The integer the comparison returns once both operands parsed. -/
def cmpInt (x y : SemKey) : Int :=
  if y < x then 1 else if x < y then -1 else 0

/-- The pre-order the comparison induces on version strings. -/
def vle (a b : String) : Prop := keyOf a ≤ keyOf b

lemma cmpInt_self (x : SemKey) : cmpInt x x = 0 := by
  simp [cmpInt, lt_irrefl]

lemma cmpInt_antisymm (x y : SemKey) : cmpInt x y = -(cmpInt y x) := by
  unfold cmpInt
  rcases lt_trichotomy x y with h | h | h
  · simp [h, asymm h]
  · subst h
    simp [lt_irrefl]
  · simp [h, asymm h]

lemma cmpInt_le_iff (x y : SemKey) : cmpInt x y ≤ 0 ↔ x ≤ y := by
  unfold cmpInt
  rcases lt_trichotomy x y with h | h | h
  · simp [h, asymm h, le_of_lt h]
  · subst h
    simp [lt_irrefl]
  · simp [h, asymm h, not_le_of_gt h]

lemma cmpInt_nonneg_iff (x y : SemKey) : 0 ≤ cmpInt x y ↔ y ≤ x := by
  unfold cmpInt
  rcases lt_trichotomy x y with h | h | h
  · simp [h, asymm h, not_le_of_gt h]
  · subst h
    simp [lt_irrefl]
  · simp [h, asymm h, le_of_lt h]

lemma semverCompare_eq_of_valid {a b : String}
    (ha : semverValid a = true) (hb : semverValid b = true) :
    semverCompare a b = .ok (cmpInt (keyOf a) (keyOf b)) := by
  unfold semverValid at ha hb
  obtain ⟨va, hva⟩ := Option.isSome_iff_exists.mp ha
  obtain ⟨vb, hvb⟩ := Option.isSome_iff_exists.mp hb
  by_cases h1 : vb.key < va.key
  · simp [semverCompare, keyOf, cmpInt, hva, hvb, h1]
  · by_cases h2 : va.key < vb.key
    · simp [semverCompare, keyOf, cmpInt, hva, hvb, h1, h2]
    · simp [semverCompare, keyOf, cmpInt, hva, hvb, h1, h2]

lemma semverCompare_ok_valid {a b : String} {c : Int}
    (h : semverCompare a b = .ok c) :
    semverValid a = true ∧ semverValid b = true := by
  unfold semverCompare at h
  unfold semverValid
  cases hva : parseSemver a with
  | none => rw [hva] at h; exact absurd h (by simp)
  | some va =>
    cases hvb : parseSemver b with
    | none => rw [hva, hvb] at h; exact absurd h (by simp)
    | some vb => simp [hva, hvb]

lemma semverCompare_ok_val {a b : String} {c : Int}
    (h : semverCompare a b = .ok c) :
    c = cmpInt (keyOf a) (keyOf b) := by
  obtain ⟨ha, hb⟩ := semverCompare_ok_valid h
  rw [semverCompare_eq_of_valid ha hb] at h
  exact (Except.ok.inj h).symm

/-! ## Facts about the semver sort and `getLatestSemver` -/

lemma vle_refl (a : String) : vle a a := le_refl _

lemma vle_trans {a b c : String} (h1 : vle a b) (h2 : vle b c) : vle a c :=
  le_trans h1 h2

lemma insertSemverE_ok {x : String} (hx : semverValid x = true) :
    ∀ {l : List String}, (∀ s ∈ l, semverValid s = true) →
    ∃ r, insertSemverE x l = .ok r ∧ r.Perm (x :: l) ∧
      (l.Sorted vle → r.Sorted vle) := by
  intro l
  induction l with
  | nil =>
    intro _
    exact ⟨[x], rfl, List.Perm.refl _, fun _ => by simp⟩
  | cons y ys ih =>
    intro hl
    have hy : semverValid y = true := hl y (List.mem_cons_self y ys)
    have hys : ∀ s ∈ ys, semverValid s = true :=
      fun s hs => hl s (List.mem_cons_of_mem y hs)
    have hcmp := semverCompare_eq_of_valid hx hy
    by_cases hle : cmpInt (keyOf x) (keyOf y) ≤ 0
    · refine ⟨x :: y :: ys, ?_, List.Perm.refl _, ?_⟩
      · simp [insertSemverE, hcmp, hle]
      · intro hs
        have hxy : vle x y := (cmpInt_le_iff _ _).mp hle
        rw [List.sorted_cons]
        refine ⟨?_, hs⟩
        intro b hb
        rcases List.mem_cons.mp hb with hb | hb
        · exact hb ▸ hxy
        · exact vle_trans hxy ((List.sorted_cons.mp hs).1 b hb)
    · obtain ⟨r, hr, hperm, hsort⟩ := ih hys
      have hyx : vle y x := by
        have := (cmpInt_le_iff (keyOf x) (keyOf y)).not.mp hle
        exact le_of_lt (lt_of_not_le this)
      refine ⟨y :: r, ?_, ?_, ?_⟩
      · simp [insertSemverE, hcmp, hle, hr]
      · exact List.Perm.trans (List.Perm.cons y hperm) (List.Perm.swap x y ys)
      · intro hs
        rw [List.sorted_cons] at hs ⊢
        refine ⟨?_, hsort hs.2⟩
        intro b hb
        have hb' : b ∈ x :: ys := (hperm.mem_iff).mp hb
        rcases List.mem_cons.mp hb' with hb' | hb'
        · exact hb' ▸ hyx
        · exact hs.1 b hb'

lemma sortSemverE_ok :
    ∀ {l : List String}, (∀ s ∈ l, semverValid s = true) →
    ∃ s, sortSemverE l = .ok s ∧ s.Perm l ∧ s.Sorted vle := by
  intro l
  induction l with
  | nil =>
    intro _
    exact ⟨[], rfl, List.Perm.refl _, by simp⟩
  | cons x xs ih =>
    intro hl
    have hx : semverValid x = true := hl x (List.mem_cons_self x xs)
    have hxs : ∀ s ∈ xs, semverValid s = true :=
      fun s hs => hl s (List.mem_cons_of_mem x hs)
    obtain ⟨s, hs, hperm, hsort⟩ := ih hxs
    have hsv : ∀ t ∈ s, semverValid t = true :=
      fun t ht => hxs t (hperm.mem_iff.mp ht)
    obtain ⟨r, hr, hrperm, hrsort⟩ := insertSemverE_ok hx hsv
    refine ⟨r, ?_, ?_, hrsort hsort⟩
    · simp [sortSemverE, hs, hr]
    · exact List.Perm.trans hrperm (List.Perm.cons x hperm)

lemma sorted_getLast_max (d : String) :
    ∀ {s : List String}, s.Sorted vle → ∀ x ∈ s, vle x ((s.getLast?).getD d) := by
  intro s
  induction s with
  | nil => intro _ x hx; exact absurd hx (List.not_mem_nil x)
  | cons y t ih =>
    intro hs x hx
    cases t with
    | nil =>
      rcases List.mem_cons.mp hx with h | h
      · subst h; simp [vle_refl]
      · exact absurd h (List.not_mem_nil x)
    | cons z t' =>
      have hsorted := List.sorted_cons.mp hs
      have hlast : ((y :: z :: t').getLast?).getD d = ((z :: t').getLast?).getD d := by
        simp [List.getLast?_cons_cons]
      rw [hlast]
      rcases List.mem_cons.mp hx with h | h
      · subst h
        exact vle_trans (hsorted.1 z (List.mem_cons_self z t'))
          (ih hsorted.2 z (List.mem_cons_self z t'))
      · exact ih hsorted.2 x h

lemma getLatestSemver_max {l : List String} (hne : l ≠ [])
    (hl : ∀ s ∈ l, semverValid s = true) :
    ∃ m, getLatestSemver l = .ok m ∧ m ∈ l ∧ ∀ v ∈ l, vle v m := by
  obtain ⟨s, hs, hperm, hsort⟩ := sortSemverE_ok hl
  have hsne : s ≠ [] := by
    intro h
    exact hne (List.Perm.eq_nil (h ▸ hperm).symm)
  refine ⟨(s.getLast?).getD "0.0.0", ?_, ?_, ?_⟩
  · simp [getLatestSemver, hs]
  · have : (s.getLast?).getD "0.0.0" ∈ s := by
      rw [List.getLast?_eq_getLast s hsne]
      exact List.getLast_mem hsne
    exact hperm.mem_iff.mp this
  · intro v hv
    exact sorted_getLast_max "0.0.0" hsort v (hperm.mem_iff.mpr hv)

/-! ## Claims C7 and C8 -/

/-- C7, counterexample: as a relation on valid version strings the
comparison is not antisymmetric — build metadata is ignored by precedence,
so the two distinct valid strings `"1.0.0"` and `"1.0.0+build"` compare
equal in both directions.  The order is total only up to
compare-equivalence, not up to string equality. -/
theorem semverCompare_not_string_antisymmetric :
    semverCompare "1.0.0" "1.0.0+build" = .ok 0 ∧
    semverCompare "1.0.0+build" "1.0.0" = .ok 0 ∧
    "1.0.0" ≠ "1.0.0+build" :=
  ⟨rfl, rfl, by decide⟩

/-- C7 (amended): `semverCompare` is a *total preorder* on valid version
strings — reflexive (`compare a a = 0`), antisymmetric at the comparator
level (`compare a b = -(compare b a)`), and transitive — and it throws an
invalid-semver error whenever either operand is not a valid version
string.  Antisymmetry up to string equality fails (see the
counterexample): distinct strings may compare equal. -/
theorem semverCompare_total_preorder :
    (∀ a, semverValid a = true → semverCompare a a = .ok 0) ∧
    (∀ a b ia ib, semverCompare a b = .ok ia → semverCompare b a = .ok ib →
      ia = -ib) ∧
    (∀ a b c ia ib, semverCompare a b = .ok ia → semverCompare b c = .ok ib →
      ia ≤ 0 → ib ≤ 0 → ∃ ic, semverCompare a c = .ok ic ∧ ic ≤ 0) ∧
    (∀ a b, (semverValid a = false ∨ semverValid b = false) →
      ∃ msg, semverCompare a b = .error msg) := by
  refine ⟨?_, ?_, ?_, ?_⟩
  · intro a ha
    rw [semverCompare_eq_of_valid ha ha, cmpInt_self]
  · intro a b ia ib hab hba
    rw [semverCompare_ok_val hab, semverCompare_ok_val hba]
    exact cmpInt_antisymm _ _
  · intro a b c ia ib hab hbc hia hib
    obtain ⟨ha, hb⟩ := semverCompare_ok_valid hab
    obtain ⟨_, hc⟩ := semverCompare_ok_valid hbc
    have h1 := semverCompare_ok_val hab
    have h2 := semverCompare_ok_val hbc
    have hxy : keyOf a ≤ keyOf b := (cmpInt_le_iff _ _).mp (h1 ▸ hia)
    have hyz : keyOf b ≤ keyOf c := (cmpInt_le_iff _ _).mp (h2 ▸ hib)
    exact ⟨cmpInt (keyOf a) (keyOf c), semverCompare_eq_of_valid ha hc,
      (cmpInt_le_iff _ _).mpr (le_trans hxy hyz)⟩
  · intro a b h
    rcases h with h | h
    · have hn : parseSemver a = none := by
        unfold semverValid at h
        exact Option.not_isSome_iff_eq_none.mp (by simp [h])
      exact ⟨"Invalid semver: " ++ a, by simp [semverCompare, hn]⟩
    · cases hpa : parseSemver a with
      | none => exact ⟨"Invalid semver: " ++ a, by simp [semverCompare, hpa]⟩
      | some va =>
        have hn : parseSemver b = none := by
          unfold semverValid at h
          exact Option.not_isSome_iff_eq_none.mp (by simp [h])
        exact ⟨"Invalid semver: " ++ b, by simp [semverCompare, hpa, hn]⟩

/-- Witness for C7's amended theorem at concrete versions. -/
theorem semverCompare_total_preorder_witness :
    semverCompare "1.2.3" "1.2.3" = .ok 0 ∧
    ((-1 : Int) = -1) ∧
    (∃ ic, semverCompare "1.0.0" "2.0.0" = .ok ic ∧ ic ≤ 0) ∧
    (∃ msg, semverCompare "oops" "1.0.0" = .error msg) :=
  ⟨semverCompare_total_preorder.1 "1.2.3" (by decide),
   semverCompare_total_preorder.2.1 "1.0.0" "1.5.0" (-1) 1 rfl rfl,
   semverCompare_total_preorder.2.2.1 "1.0.0" "1.5.0" "2.0.0" (-1) (-1)
     rfl rfl (by decide) (by decide),
   semverCompare_total_preorder.2.2.2 "oops" "1.0.0" (Or.inl (by decide))⟩

/-- C8: `getLatestSemver` of an empty collection is the sentinel
`"0.0.0"`; of any non-empty collection of valid versions it is a maximal
element under `semverCompare` that belongs to the collection. -/
theorem getLatestSemver_spec :
    getLatestSemver [] = .ok "0.0.0" ∧
    ∀ l : List String, l ≠ [] → (∀ s ∈ l, semverValid s = true) →
      ∃ m, getLatestSemver l = .ok m ∧ m ∈ l ∧
        ∀ v ∈ l, ∃ c, semverCompare v m = .ok c ∧ c ≤ 0 := by
  refine ⟨rfl, ?_⟩
  intro l hne hl
  obtain ⟨m, hm, hmem, hmax⟩ := getLatestSemver_max hne hl
  refine ⟨m, hm, hmem, ?_⟩
  intro v hv
  exact ⟨cmpInt (keyOf v) (keyOf m),
    semverCompare_eq_of_valid (hl v hv) (hl m hmem),
    (cmpInt_le_iff _ _).mpr (hmax v hv)⟩

/-- Witness for C8 at a concrete collection. -/
theorem getLatestSemver_spec_witness :
    getLatestSemver [] = .ok "0.0.0" ∧
    ∃ m, getLatestSemver ["1.0.0", "0.1.0", "1.0.1"] = .ok m ∧
      m ∈ ["1.0.0", "0.1.0", "1.0.1"] ∧
      ∀ v ∈ ["1.0.0", "0.1.0", "1.0.1"],
        ∃ c, semverCompare v m = .ok c ∧ c ≤ 0 :=
  ⟨getLatestSemver_spec.1,
   getLatestSemver_spec.2 ["1.0.0", "0.1.0", "1.0.1"] (by decide) (by decide)⟩

/-! ## The value universe and the schema capability -/

/-- JS values as the store handles them.  The exact universe is opaque to
the code; what matters is that values can be compared, stored, and that
some of them are *falsy* — `load()` branches on JS falsiness. -/
inductive Value where
  | vNull : Value
  | vBool : Bool → Value
  | vNum : Int → Value
  | vStr : String → Value
deriving DecidableEq

/-- JS falsiness: `null`, `false`, `0` and `""` are falsy. -/
def Value.falsy : Value → Bool
  | .vNull => true
  | .vBool b => !b
  | .vNum n => n == 0
  | .vStr s => s == ""

/-- A zod validator as the code consumes it (`safeParse`): `some parsed`
on acceptance — the parsed output may differ from the input (zod defaults,
unknown-key stripping, transforms) — `none` on rejection. -/
abbrev Schema := Value → Option Value

/-- `parseSchema` from `src/utils.ts`: `safeParse` wrapped into an
`Either` (the `ZodError` detail is irrelevant here, so `Unit`). -/
def parseSchema (schema : Schema) (value : Value) : Except Unit Value :=
  match schema value with
  | some d => .ok d
  | none => .error ()

/-- `matchesSchema` from `src/utils.ts`: `E.isRight ∘ parseSchema`. -/
def matchesSchema (schema : Schema) (value : Value) : Bool :=
  match parseSchema schema value with
  | .ok _ => true
  | .error _ => false

/-- One entry of a `SchemaHistory` object: a validator and an optional
migration targeting the latest schema. -/
structure SchemaEntry where
  schema : Schema
  migration : Option (Value → Value)

/-- A `SchemaHistory` object: a string-keyed record, modelled as an
association list in insertion order (keys of a record are unique). -/
abbrev SchemaHistory := List (String × SchemaEntry)

/-- Record access `schemaHistory[version]`, total via a vacuous default
entry; the code only applies it to keys of the record. -/
def entryOf (h : SchemaHistory) (version : String) : SchemaEntry :=
  ((h.find? (fun p => p.1 == version)).map Prod.snd).getD ⟨fun _ => none, none⟩

/-- JS `Object.keys(r).sort()` compares strings by code unit; modelled by
comparing the character lists. -/
def strLe (a b : String) : Bool := decide (a.toList ≤ b.toList)

/-- Insertion step of the key sort. -/
def insortStr (x : String) : List String → List String
  | [] => [x]
  | y :: ys => if strLe x y then x :: y :: ys else y :: insortStr x ys

/-- `Object.keys(r).sort()`'s sort, as a stable insertion sort. -/
def sortStr : List String → List String
  | [] => []
  | x :: xs => insortStr x (sortStr xs)

/-- `R.keys(schemaHistory)` (fp-ts): the record's keys, string-sorted. -/
def recordKeys (h : SchemaHistory) : List String := sortStr (h.map Prod.fst)

/-- `getLatestSchemaVersion` from `src/utils.ts`. -/
def getLatestSchemaVersion (h : SchemaHistory) : Except String String :=
  getLatestSemver (recordKeys h)

/-- The keys sorted by `semverOrd` and reversed, as in `migrate`'s
pipeline (`A.sort(semverOrd)`, `A.reverse`). -/
def sortedKeysDesc (h : SchemaHistory) : Except String (List String) :=
  match sortSemverE (recordKeys h) with
  | .error e => .error e
  | .ok s => .ok s.reverse

/-- `A.findFirst` over the descending keys: the *source version*, the
first version scanned downward whose validator accepts the value. -/
def findSourceVersion (h : SchemaHistory) (value : Value) :
    Except String (Option String) :=
  match sortedKeysDesc h with
  | .error e => .error e
  | .ok ks =>
    .ok (ks.find? (fun version => matchesSchema (entryOf h version).schema value))

/-- `migrate`'s `Either`-level failures: `noMatchingSchema` is the code's
`"No matching schema"`, `noMigration v` its
`"No migration available for {v} schema"` (the spec's
`NoUpgradeAvailable(v)`), and `validationError` the `ZodError` a candidate
rejected by the latest validator produces. -/
inductive MigrateError where
  | noMatchingSchema : MigrateError
  | noMigration : String → MigrateError
  | validationError : MigrateError
deriving DecidableEq

/-- `migrate` from `src/utils.ts`.  The outer `Except String` is a thrown
exception (an invalid semver key makes the sort throw, which propagates);
the inner `Except MigrateError Value` is the function's `Either` result.
On success the returned value is the *latest* validator's parsed output on
the candidate `migration value`. -/
def migrate (h : SchemaHistory) (value : Value) :
    Except String (Except MigrateError Value) :=
  match findSourceVersion h value with
  | .error e => .error e
  | .ok none => .ok (.error .noMatchingSchema)
  | .ok (some version) =>
    match (entryOf h version).migration with
    | none => .ok (.error (.noMigration version))
    | some migration =>
      match getLatestSchemaVersion h with
      | .error e => .error e
      | .ok latest =>
        match parseSchema (entryOf h latest).schema (migration value) with
        | .ok d => .ok (.ok d)
        | .error _ => .ok (.error .validationError)

/-! ## Facts about the record keys -/

lemma insortStr_perm (x : String) :
    ∀ l : List String, (insortStr x l).Perm (x :: l) := by
  intro l
  induction l with
  | nil => exact List.Perm.refl _
  | cons y ys ih =>
    by_cases hle : strLe x y
    · simp [insortStr, hle]
    · simp only [insortStr, hle, if_neg, Bool.false_eq_true, not_false_iff]
      exact List.Perm.trans (List.Perm.cons y ih) (List.Perm.swap x y ys)

lemma sortStr_perm : ∀ l : List String, (sortStr l).Perm l := by
  intro l
  induction l with
  | nil => exact List.Perm.refl _
  | cons x xs ih =>
    exact List.Perm.trans (insortStr_perm x (sortStr xs)) (List.Perm.cons x ih)

lemma recordKeys_perm (h : SchemaHistory) :
    (recordKeys h).Perm (h.map Prod.fst) := sortStr_perm _

lemma sortedKeysDesc_ok {h : SchemaHistory}
    (hvalid : ∀ k ∈ h.map Prod.fst, semverValid k = true) :
    ∃ ks, sortedKeysDesc h = .ok ks ∧ ks.Perm (h.map Prod.fst) ∧
      ks.Pairwise (fun a b => vle b a) := by
  have hrk : ∀ k ∈ recordKeys h, semverValid k = true :=
    fun k hk => hvalid k ((recordKeys_perm h).mem_iff.mp hk)
  obtain ⟨s, hs, hperm, hsort⟩ := sortSemverE_ok hrk
  refine ⟨s.reverse, ?_, ?_, ?_⟩
  · simp [sortedKeysDesc, hs]
  · exact (s.reverse_perm).trans (hperm.trans (recordKeys_perm h))
  · rw [List.pairwise_reverse]
    exact hsort

lemma getLatestSchemaVersion_max {h : SchemaHistory}
    (hvalid : ∀ k ∈ h.map Prod.fst, semverValid k = true) (hne : h ≠ []) :
    ∃ latest, getLatestSchemaVersion h = .ok latest ∧
      latest ∈ h.map Prod.fst ∧ ∀ k ∈ h.map Prod.fst, vle k latest := by
  have hrk : ∀ k ∈ recordKeys h, semverValid k = true :=
    fun k hk => hvalid k ((recordKeys_perm h).mem_iff.mp hk)
  have hrkne : recordKeys h ≠ [] := by
    intro hnil
    have hmap : h.map Prod.fst = [] := by
      have hp := recordKeys_perm h
      rw [hnil] at hp
      exact hp.symm.eq_nil
    exact hne (List.map_eq_nil_iff.mp hmap)
  obtain ⟨m, hm, hmem, hmax⟩ := getLatestSemver_max hrkne hrk
  exact ⟨m, hm, (recordKeys_perm h).mem_iff.mp hmem,
    fun k hk => hmax k ((recordKeys_perm h).mem_iff.mpr hk)⟩

/-! ## Claims C3 and C4 -/

/-- C3: when `migrate` succeeds, the value it returns is the output of the
*latest* version's validator (the latest being maximal under the version
order over all keys) applied to the upgrade candidate — `migrate` never
returns a candidate the latest validator has not accepted — and an upgrade
output the latest validator rejects makes `migrate` return a validation
failure. -/
theorem migrate_validates_latest (h : SchemaHistory) (raw : Value)
    (hvalid : ∀ k ∈ h.map Prod.fst, semverValid k = true) :
    (∀ v, migrate h raw = .ok (.ok v) →
      ∃ latest src migration,
        getLatestSchemaVersion h = .ok latest ∧
        (∀ k ∈ h.map Prod.fst, ∃ c, semverCompare k latest = .ok c ∧ c ≤ 0) ∧
        findSourceVersion h raw = .ok (some src) ∧
        (entryOf h src).migration = some migration ∧
        (entryOf h latest).schema (migration raw) = some v) ∧
    (∀ src migration latest,
      findSourceVersion h raw = .ok (some src) →
      (entryOf h src).migration = some migration →
      getLatestSchemaVersion h = .ok latest →
      (entryOf h latest).schema (migration raw) = none →
      migrate h raw = .ok (.error .validationError)) := by
  constructor
  · intro v hv
    cases hfs : findSourceVersion h raw with
    | error e => simp [migrate, hfs] at hv
    | ok osrc =>
      cases osrc with
      | none => simp [migrate, hfs] at hv
      | some src =>
        cases hmig : (entryOf h src).migration with
        | none => simp [migrate, hfs, hmig] at hv
        | some migration =>
          cases hlat : getLatestSchemaVersion h with
          | error e => simp [migrate, hfs, hmig, hlat] at hv
          | ok latest =>
            cases hss : (entryOf h latest).schema (migration raw) with
            | none => simp [migrate, hfs, hmig, hlat, parseSchema, hss] at hv
            | some d =>
              have hdv : d = v := by
                simp [migrate, hfs, hmig, hlat, parseSchema, hss] at hv
                exact hv
              have hne : h ≠ [] := by
                intro h0
                subst h0
                simp [findSourceVersion, sortedKeysDesc, recordKeys, sortStr,
                  sortSemverE] at hfs
              obtain ⟨latest2, hlat2, hmem2, hmax⟩ := getLatestSchemaVersion_max hvalid hne
              have hll : latest2 = latest := Except.ok.inj (hlat2.symm.trans hlat)
              refine ⟨latest, src, migration, ?_, ?_, ?_, ?_, ?_⟩
              · rfl
              · intro k hk
                exact ⟨cmpInt (keyOf k) (keyOf latest),
                  semverCompare_eq_of_valid (hvalid k hk) (hvalid latest (hll ▸ hmem2)),
                  (cmpInt_le_iff _ _).mpr (hll ▸ hmax k hk)⟩
              · rfl
              · exact hmig
              · rw [hss, hdv]
  · intro src migration latest hfs hmig hlat hrej
    simp [migrate, hfs, hmig, hlat, parseSchema, hrej]

/-- C4: the source version is the first version, scanning the history's
keys in descending order, whose validator accepts the raw value; if no
validator accepts, `migrate` fails with the no-matching-schema error; if
the source version's entry has no migration, `migrate` fails with the
no-migration error for that version — including when the source version is
the latest one, as the witness instantiates. -/
theorem migrate_scan_spec (h : SchemaHistory) (raw : Value)
    (hvalid : ∀ k ∈ h.map Prod.fst, semverValid k = true) :
    ∃ ks, sortedKeysDesc h = .ok ks ∧ ks.Perm (h.map Prod.fst) ∧
      ks.Chain' (fun a b => ∃ c, semverCompare a b = .ok c ∧ 0 ≤ c) ∧
      findSourceVersion h raw =
        .ok (ks.find? (fun v => matchesSchema (entryOf h v).schema raw)) ∧
      ((∀ k ∈ h.map Prod.fst, matchesSchema (entryOf h k).schema raw = false) →
        migrate h raw = .ok (.error .noMatchingSchema)) ∧
      (∀ src, ks.find? (fun v => matchesSchema (entryOf h v).schema raw) = some src →
        matchesSchema (entryOf h src).schema raw = true ∧
        ((entryOf h src).migration = none →
          migrate h raw = .ok (.error (.noMigration src)))) := by
  obtain ⟨ks, hks, hperm, hpair⟩ := sortedKeysDesc_ok hvalid
  have hchain : ks.Chain' (fun a b => ∃ c, semverCompare a b = .ok c ∧ 0 ≤ c) := by
    have hp2 : ks.Pairwise (fun a b => ∃ c, semverCompare a b = .ok c ∧ 0 ≤ c) := by
      refine List.Pairwise.imp_of_mem ?_ hpair
      intro a b ha hb hba
      exact ⟨cmpInt (keyOf a) (keyOf b),
        semverCompare_eq_of_valid (hvalid a (hperm.mem_iff.mp ha))
          (hvalid b (hperm.mem_iff.mp hb)),
        (cmpInt_nonneg_iff _ _).mpr hba⟩
    exact hp2.chain'
  refine ⟨ks, hks, hperm, hchain, ?_, ?_, ?_⟩
  · simp [findSourceVersion, hks]
  · intro hnone
    have hfind : ks.find? (fun v => matchesSchema (entryOf h v).schema raw) = none := by
      refine List.find?_eq_none.mpr ?_
      intro x hx
      simp [hnone x (hperm.mem_iff.mp hx)]
    simp [migrate, findSourceVersion, hks, hfind]
  · intro src hsrc
    refine ⟨by simpa using List.find?_some hsrc, ?_⟩
    intro hmig
    simp [migrate, findSourceVersion, hks, hsrc, hmig]

/-! ## Concrete schemas for the witnesses -/

/-- A validator accepting exactly strings, parsed to themselves. -/
def strSchema : Schema := fun v =>
  match v with
  | .vStr s => some (.vStr s)
  | _ => none

/-- A validator accepting exactly numbers, parsed to themselves. -/
def numSchema : Schema := fun v =>
  match v with
  | .vNum n => some (.vNum n)
  | _ => none

/-- History for the C3 witness: `0.0.1` accepts strings and migrates to
the number `7`; `0.0.2` (the latest) accepts numbers. -/
def hW3 : SchemaHistory :=
  [("0.0.1", ⟨strSchema, some (fun _ => .vNum 7)⟩), ("0.0.2", ⟨numSchema, none⟩)]

/-- History for the C4 witness: a single (hence latest) version with no
migration. -/
def hW4 : SchemaHistory := [("0.0.2", ⟨strSchema, none⟩)]

/-- Witness for C3 at a concrete history and raw value. -/
theorem migrate_validates_latest_witness :
    ∃ latest src migration,
      getLatestSchemaVersion hW3 = .ok latest ∧
      (∀ k ∈ hW3.map Prod.fst, ∃ c, semverCompare k latest = .ok c ∧ c ≤ 0) ∧
      findSourceVersion hW3 (Value.vStr "old") = .ok (some src) ∧
      (entryOf hW3 src).migration = some migration ∧
      (entryOf hW3 latest).schema (migration (Value.vStr "old")) =
        some (Value.vNum 7) :=
  (migrate_validates_latest hW3 (Value.vStr "old") (by decide)).1
    (Value.vNum 7) rfl

/-- Witness for C4 at a single-version history: the source version is the
latest one and still fails with the no-migration error. -/
theorem migrate_scan_spec_witness :
    ∃ ks, sortedKeysDesc hW4 = .ok ks ∧ ks.Perm (hW4.map Prod.fst) ∧
      ks.Chain' (fun a b => ∃ c, semverCompare a b = .ok c ∧ 0 ≤ c) ∧
      findSourceVersion hW4 (Value.vStr "x") =
        .ok (ks.find? (fun v => matchesSchema (entryOf hW4 v).schema (Value.vStr "x"))) ∧
      ((∀ k ∈ hW4.map Prod.fst,
          matchesSchema (entryOf hW4 k).schema (Value.vStr "x") = false) →
        migrate hW4 (Value.vStr "x") = .ok (.error .noMatchingSchema)) ∧
      (∀ src,
        ks.find? (fun v => matchesSchema (entryOf hW4 v).schema (Value.vStr "x")) =
          some src →
        matchesSchema (entryOf hW4 src).schema (Value.vStr "x") = true ∧
        ((entryOf hW4 src).migration = none →
          migrate hW4 (Value.vStr "x") = .ok (.error (.noMigration src)))) :=
  migrate_scan_spec hW4 (Value.vStr "x") (by decide)

/-! ## The store lifecycle controller (`src/persistent.ts`) -/

/-- Observable actions of one controller, in the order they happen.
`writeResolved k v` is the resolution of the `localforage.setItem` promise
for key `k` and value `v`; `notified v` is the svelte writable's `set`
call (subscriber notification); `memSet v` the update of the closure's
`__.value`; `errorLogged` and `warnLogged` the console reports. -/
inductive Event where
  | errorLogged : Event
  | warnLogged : Event
  | writeResolved : String → Value → Event
  | notified : Value → Event
  | memSet : Value → Event
deriving DecidableEq

/-- The world one controller instance acts on: the storage contents, the
closure state `__` (its `value` and `initialized` flag), the writable's
current value, and the trace of events so far. -/
structure World where
  storage : List (String × Value)
  value : Value
  initialized : Bool
  svelte : Value
  events : List Event

/-- Construction arguments of `persistent` (the defaulted parameters
already filled in). -/
structure StoreConfig where
  key : String
  schemaHistory : SchemaHistory
  defaultValue : Value
  currentVersion : String

/-- The prefixed storage key `silent-persistent-{currentVersion}-{key}`. -/
def StoreConfig.processedKey (cfg : StoreConfig) : String :=
  "silent-persistent-" ++ cfg.currentVersion ++ "-" ++ cfg.key

/-- `schemaHistory[currentVersion].schema`, the active schema. -/
def StoreConfig.currentSchema (cfg : StoreConfig) : Schema :=
  (entryOf cfg.schemaHistory cfg.currentVersion).schema

/-- `localforage.getItem`: `null` when the key is absent. -/
def getIn (storage : List (String × Value)) (k : String) : Value :=
  ((storage.find? (fun p => p.1 == k)).map Prod.snd).getD .vNull

/-- `localforage.setItem`. -/
def setIn : List (String × Value) → String → Value → List (String × Value)
  | [], k, v => [(k, v)]
  | (k0, v0) :: rest, k, v =>
    if k0 == k then (k, v) :: rest else (k0, v0) :: setIn rest k v

/-- `save` from `src/persistent.ts` — the store's `set`.  A value the
active schema rejects is logged and nothing else happens.  An accepted
value is written to storage and, once that write has resolved, the
writable is set (subscribers notified) and `__.value` updated — the
*original* `value` is persisted and adopted, `parseSchema`'s output is
used only as the success test.  The storage write is modelled as
completing (a hung write is outside this development's scope). -/
def save (cfg : StoreConfig) (value : Value) (w : World) : World :=
  match parseSchema cfg.currentSchema value with
  | .error _ => { w with events := w.events ++ [.errorLogged] }
  | .ok _ =>
    { w with
      storage := setIn w.storage cfg.processedKey value
      value := value
      svelte := value
      events := w.events ++
        [.writeResolved cfg.processedKey value, .notified value, .memSet value] }

/-- `setDefault` inside `load`: save the default, mark initialized, and
return the default — returned even when the default itself fails
validation and `save` was a logging no-op. -/
def setDefault (cfg : StoreConfig) (w : World) : Value × World :=
  let w1 := save cfg cfg.defaultValue w
  (cfg.defaultValue, { w1 with initialized := true })

/-- `load` from `src/persistent.ts`.  A second `load` returns the cached
value.  Otherwise: read the stored value (`null` when absent); on a direct
hit adopt the *parsed* output without touching storage; else, when the
stored value is JS-*falsy* (`!$value`), warn and take the default path;
else run `migrate` and either adopt (and re-`save`) the migrated value or
warn and take the default path.  The outer `Except String` is an exception
escaping `load` (only possible when `migrate` throws on an invalid version
key). -/
def load (cfg : StoreConfig) (w : World) : Except String (Value × World) :=
  if w.initialized then .ok (w.value, w)
  else
    let v := getIn w.storage cfg.processedKey
    match parseSchema cfg.currentSchema v with
    | .ok parsed =>
      .ok (parsed,
        { w with
          value := parsed
          initialized := true
          svelte := parsed
          events := w.events ++ [.notified parsed] })
    | .error _ =>
      if v.falsy then
        .ok (setDefault cfg { w with events := w.events ++ [.warnLogged] })
      else
        match migrate cfg.schemaHistory v with
        | .error e => .error e
        | .ok (.error _) =>
          .ok (setDefault cfg { w with events := w.events ++ [.warnLogged] })
        | .ok (.ok m) =>
          let w1 := save cfg m w
          .ok (m, { w1 with initialized := true })

/-- A fresh controller instance over given storage contents: the closure
and the writable hold the default value, nothing loaded or logged yet. -/
def initialWorld (cfg : StoreConfig) (storage : List (String × Value)) : World :=
  { storage := storage
    value := cfg.defaultValue
    initialized := false
    svelte := cfg.defaultValue
    events := [] }

lemma getIn_setIn (st : List (String × Value)) (k : String) (v : Value) :
    getIn (setIn st k v) k = v := by
  induction st with
  | nil => simp [setIn, getIn]
  | cons p rest ih =>
    obtain ⟨k0, v0⟩ := p
    by_cases hk : k0 == k
    · simp [setIn, hk, getIn]
    · simp only [setIn, hk, if_neg, Bool.false_eq_true, not_false_iff]
      simp only [getIn, List.find?] at ih ⊢
      simp [hk]
      exact ih

/-- The direct-hit branch of `load`, shared by several claims: an
uninitialized controller whose stored raw value the active schema accepts
adopts the parsed output, marks itself initialized, notifies, and leaves
storage alone. -/
lemma load_direct (cfg : StoreConfig) (w : World) (raw q : Value)
    (hinit : w.initialized = false)
    (hstored : getIn w.storage cfg.processedKey = raw)
    (hdirect : parseSchema cfg.currentSchema raw = .ok q) :
    load cfg w = .ok (q,
      { w with
        value := q
        initialized := true
        svelte := q
        events := w.events ++ [Event.notified q] }) := by
  simp [load, hinit, hstored, hdirect]

/-! ## Claims C5, C6, C9, C10 -/

/-- C5: a `set` with a value the active schema rejects reports the error
and leaves the in-memory state, the writable, the `initialized` flag and
storage untouched; the only appended event is the error report, so no
subscriber is notified. -/
theorem set_rejected_frame (cfg : StoreConfig) (w : World) (v : Value)
    (hrej : parseSchema cfg.currentSchema v = .error ()) :
    (save cfg v w).storage = w.storage ∧
    (save cfg v w).value = w.value ∧
    (save cfg v w).svelte = w.svelte ∧
    (save cfg v w).initialized = w.initialized ∧
    (save cfg v w).events = w.events ++ [Event.errorLogged] := by
  simp [save, hrej]

/-- C6: a `set` with an accepted value updates the in-memory value, and in
the appended trace the subscriber notification and the memory update come
strictly after the resolution of the storage write of that same key and
value; every notification in the appended trace is of the written value
and is preceded by its own write's resolution. -/
theorem set_notifies_after_write (cfg : StoreConfig) (w : World) (v p : Value)
    (hacc : parseSchema cfg.currentSchema v = .ok p) :
    ∃ t, (save cfg v w).events = w.events ++ t ∧
      (save cfg v w).value = v ∧
      List.Sublist [Event.writeResolved cfg.processedKey v, Event.notified v] t ∧
      List.Sublist [Event.writeResolved cfg.processedKey v, Event.memSet v] t ∧
      ∀ u, Event.notified u ∈ t → u = v ∧
        ∃ t1 t2, t = t1 ++ [Event.notified u] ++ t2 ∧
          Event.writeResolved cfg.processedKey u ∈ t1 := by
  refine ⟨[.writeResolved cfg.processedKey v, .notified v, .memSet v],
    ?_, ?_, ?_, ?_, ?_⟩
  · simp [save, hacc]
  · simp [save, hacc]
  · exact ((List.nil_sublist [Event.memSet v]).cons₂
      (Event.notified v)).cons₂ (Event.writeResolved cfg.processedKey v)
  · exact ((List.Sublist.refl [Event.memSet v]).cons
      (Event.notified v)).cons₂ (Event.writeResolved cfg.processedKey v)
  · intro u hu
    simp at hu
    refine ⟨hu, [Event.writeResolved cfg.processedKey v], [Event.memSet v], ?_, ?_⟩
    · simp [hu]
    · simp [hu]

/-- C9: `set` persists to storage and adopts in memory the caller's
*original* value — any rewriting the validator performs is not applied to
what `set` stores or exposes — whereas a direct-hit `load` adopts the
validator's *parsed* output. -/
theorem save_original_load_parsed (cfg : StoreConfig) (w w2 : World)
    (v p raw q : Value)
    (hacc : parseSchema cfg.currentSchema v = .ok p)
    (hinit : w2.initialized = false)
    (hstored : getIn w2.storage cfg.processedKey = raw)
    (hdirect : parseSchema cfg.currentSchema raw = .ok q) :
    ((save cfg v w).storage = setIn w.storage cfg.processedKey v ∧
     getIn (save cfg v w).storage cfg.processedKey = v ∧
     (save cfg v w).value = v ∧
     (save cfg v w).svelte = v) ∧
    (∃ w2x, load cfg w2 = .ok (q, w2x) ∧ w2x.value = q ∧ w2x.svelte = q) := by
  refine ⟨⟨by simp [save, hacc], ?_, by simp [save, hacc], by simp [save, hacc]⟩, ?_⟩
  · simp [save, hacc, getIn_setIn]
  · exact ⟨_, load_direct cfg w2 raw q hinit hstored hdirect, rfl, rfl⟩

/-- C10: on a direct hit — the stored raw value validates against the
active schema as-is — `load` adopts the parsed value without issuing any
write: storage is unchanged and the only appended event is the
notification. -/
theorem load_direct_hit_no_write (cfg : StoreConfig) (w : World) (raw q : Value)
    (hinit : w.initialized = false)
    (hstored : getIn w.storage cfg.processedKey = raw)
    (hdirect : parseSchema cfg.currentSchema raw = .ok q) :
    ∃ w1, load cfg w = .ok (q, w1) ∧ w1.storage = w.storage ∧
      w1.events = w.events ++ [Event.notified q] := by
  exact ⟨_, load_direct cfg w raw q hinit hstored hdirect, rfl, rfl⟩

/-! ## Claims C1 and C2, with their counterexamples -/

/-- A validator accepting exactly numbers but *rewriting* them all to `0`
— standing in for zod's defaults / unknown-key stripping / transforms. -/
def numToZeroSchema : Schema := fun v =>
  match v with
  | .vNum _ => some (.vNum 0)
  | _ => none

/-- Controller configuration over the transforming validator. -/
def cfgT : StoreConfig :=
  { key := "k"
    schemaHistory := [("1.0.0", ⟨numToZeroSchema, none⟩)]
    defaultValue := .vNum 0
    currentVersion := "1.0.0" }

/-- Controller configuration over the identity-on-numbers validator. -/
def cfgN : StoreConfig :=
  { key := "k"
    schemaHistory := [("1.0.0", ⟨numSchema, none⟩)]
    defaultValue := .vNum 0
    currentVersion := "1.0.0" }

/-- Controller configuration over the two-version history `hW3`
(`0.0.1`: strings, migrates to the number `7`; `0.0.2`: numbers). -/
def cfgC1 : StoreConfig :=
  { key := "k"
    schemaHistory := hW3
    defaultValue := .vNum 0
    currentVersion := "0.0.2" }

/-- An uninitialized controller whose storage holds the falsy string `""`
under the store's key. -/
def wC1 : World := initialWorld cfgC1 [(cfgC1.processedKey, Value.vStr "")]

/-- An uninitialized controller whose storage holds the truthy string
`"old"` under the store's key. -/
def wC1b : World := initialWorld cfgC1 [(cfgC1.processedKey, Value.vStr "old")]

/-- C1, counterexample: the stored value `""` is present in storage and
fails direct validation, and `migrate` would succeed on it (to the number
`7`), yet `load` never invokes the migration path: the JS-falsy check
`!$value` misreads the present value as "no value found" and `load`
adopts the default `0` instead. -/
theorem load_skips_migration_counterexample :
    getIn wC1.storage cfgC1.processedKey = Value.vStr "" ∧
    parseSchema cfgC1.currentSchema (Value.vStr "") = .error () ∧
    migrate cfgC1.schemaHistory (Value.vStr "") = .ok (.ok (Value.vNum 7)) ∧
    (load cfgC1 wC1).map Prod.fst = .ok (Value.vNum 0) ∧
    Value.vNum 0 ≠ Value.vNum 7 :=
  ⟨rfl, rfl, rfl, rfl, by decide⟩

/-- C1 (amended): for a stored raw value that is present, *truthy* (not
`null`/`false`/`0`/`""`), and fails direct validation, `load` follows
`migrate`'s verdict — on success it adopts the migrated value (persisting
it when it passes the active schema again), and only on `migrate` failure
does it fall back to adopting (and, when valid, persisting) the default.
Falsy stored values that fail direct validation skip migration entirely
and take the default path as if storage were empty (see the
counterexample). -/
theorem load_migration_path (cfg : StoreConfig) (w : World) (raw : Value)
    (hinit : w.initialized = false)
    (hstored : getIn w.storage cfg.processedKey = raw)
    (htruthy : raw.falsy = false)
    (hfail : parseSchema cfg.currentSchema raw = .error ()) :
    (∀ m, migrate cfg.schemaHistory raw = .ok (.ok m) →
      ∃ w1, load cfg w = .ok (m, w1) ∧
        (∀ pm, parseSchema cfg.currentSchema m = .ok pm →
          getIn w1.storage cfg.processedKey = m)) ∧
    (∀ e, migrate cfg.schemaHistory raw = .ok (.error e) →
      ∃ w1, load cfg w = .ok (cfg.defaultValue, w1) ∧
        (∀ pd, parseSchema cfg.currentSchema cfg.defaultValue = .ok pd →
          getIn w1.storage cfg.processedKey = cfg.defaultValue)) := by
  constructor
  · intro m hm
    refine ⟨{ save cfg m w with initialized := true }, ?_, ?_⟩
    · simp [load, hinit, hstored, htruthy, hfail, hm]
    · intro pm hpm
      simp [save, hpm, getIn_setIn]
  · intro e hm
    refine ⟨(setDefault cfg { w with events := w.events ++ [Event.warnLogged] }).2,
      ?_, ?_⟩
    · simp [load, hinit, hstored, htruthy, hfail, hm, setDefault]
    · intro pd hpd
      simp [setDefault, save, hpd, getIn_setIn]

/-- Witness for C1's amended theorem: the truthy stored string `"old"`
fails direct validation, migrates to the number `7`, and `load` adopts and
persists `7`. -/
theorem load_migration_path_witness :
    ∃ w1, load cfgC1 wC1b = .ok (Value.vNum 7, w1) ∧
      (∀ pm, parseSchema cfgC1.currentSchema (Value.vNum 7) = .ok pm →
        getIn w1.storage cfgC1.processedKey = Value.vNum 7) :=
  (load_migration_path cfgC1 wC1b (Value.vStr "old") rfl rfl rfl rfl).1
    (Value.vNum 7) rfl

/-- C2, counterexample: with a rewriting validator (any number parses to
`0`), `set(5)` is accepted and stores the original `5`, but a fresh
controller's `load()` yields the parsed `0`, not `5`: the round trip
returns the validator's output, not the value that was set. -/
theorem roundtrip_counterexample :
    matchesSchema cfgT.currentSchema (Value.vNum 5) = true ∧
    (load cfgT (initialWorld cfgT
        (save cfgT (Value.vNum 5) (initialWorld cfgT [])).storage)).map Prod.fst =
      .ok (Value.vNum 0) ∧
    Value.vNum 0 ≠ Value.vNum 5 :=
  ⟨rfl, rfl, by decide⟩

/-- C2 (amended): `set(v)` with `v` accepted by the active schema,
followed by `load()` on a fresh controller with the same key and version,
yields the active validator's parsed output for `v`; this is `v` itself
exactly when the validator parses `v` to itself (no defaults, stripping or
transforms), as in the witness. -/
theorem set_then_fresh_load (cfg : StoreConfig) (w : World) (v p : Value)
    (hacc : parseSchema cfg.currentSchema v = .ok p) :
    ∃ w1, load cfg (initialWorld cfg (save cfg v w).storage) = .ok (p, w1) := by
  have hst : getIn (save cfg v w).storage cfg.processedKey = v := by
    simp [save, hacc, getIn_setIn]
  exact ⟨_, load_direct cfg (initialWorld cfg (save cfg v w).storage) v p
    rfl hst hacc⟩

/-- Witness for C2's amended theorem with a non-rewriting validator:
`set(5)` then a fresh `load()` yields `5` back. -/
theorem set_then_fresh_load_witness :
    ∃ w1, load cfgN
      (initialWorld cfgN (save cfgN (Value.vNum 5) (initialWorld cfgN [])).storage) =
      .ok (Value.vNum 5, w1) :=
  set_then_fresh_load cfgN (initialWorld cfgN []) (Value.vNum 5) (Value.vNum 5) rfl

/-- Witness for C5 at a concrete rejected value. -/
theorem set_rejected_frame_witness :
    (save cfgN (Value.vStr "no") (initialWorld cfgN [])).storage =
      (initialWorld cfgN []).storage ∧
    (save cfgN (Value.vStr "no") (initialWorld cfgN [])).value =
      (initialWorld cfgN []).value ∧
    (save cfgN (Value.vStr "no") (initialWorld cfgN [])).svelte =
      (initialWorld cfgN []).svelte ∧
    (save cfgN (Value.vStr "no") (initialWorld cfgN [])).initialized =
      (initialWorld cfgN []).initialized ∧
    (save cfgN (Value.vStr "no") (initialWorld cfgN [])).events =
      (initialWorld cfgN []).events ++ [Event.errorLogged] :=
  set_rejected_frame cfgN (initialWorld cfgN []) (Value.vStr "no") rfl

/-- Witness for C6 at a concrete accepted value. -/
theorem set_notifies_after_write_witness :
    ∃ t, (save cfgN (Value.vNum 5) (initialWorld cfgN [])).events =
        (initialWorld cfgN []).events ++ t ∧
      (save cfgN (Value.vNum 5) (initialWorld cfgN [])).value = Value.vNum 5 ∧
      List.Sublist [Event.writeResolved cfgN.processedKey (Value.vNum 5),
        Event.notified (Value.vNum 5)] t ∧
      List.Sublist [Event.writeResolved cfgN.processedKey (Value.vNum 5),
        Event.memSet (Value.vNum 5)] t ∧
      ∀ u, Event.notified u ∈ t → u = Value.vNum 5 ∧
        ∃ t1 t2, t = t1 ++ [Event.notified u] ++ t2 ∧
          Event.writeResolved cfgN.processedKey u ∈ t1 :=
  set_notifies_after_write cfgN (initialWorld cfgN []) (Value.vNum 5)
    (Value.vNum 5) rfl

/-- Witness for C9: the rewriting validator accepts `5` but parses it to
`0`; `set(5)` still stores and exposes `5`, while a direct-hit `load` over
a stored `5` adopts the parsed `0`. -/
theorem save_original_load_parsed_witness :
    (((save cfgT (Value.vNum 5) (initialWorld cfgT [])).storage =
        setIn (initialWorld cfgT []).storage cfgT.processedKey (Value.vNum 5) ∧
      getIn (save cfgT (Value.vNum 5) (initialWorld cfgT [])).storage
        cfgT.processedKey = Value.vNum 5 ∧
      (save cfgT (Value.vNum 5) (initialWorld cfgT [])).value = Value.vNum 5 ∧
      (save cfgT (Value.vNum 5) (initialWorld cfgT [])).svelte = Value.vNum 5) ∧
     (∃ w2x, load cfgT (initialWorld cfgT [(cfgT.processedKey, Value.vNum 5)]) =
        .ok (Value.vNum 0, w2x) ∧ w2x.value = Value.vNum 0 ∧
        w2x.svelte = Value.vNum 0)) ∧
    Value.vNum 0 ≠ Value.vNum 5 :=
  ⟨save_original_load_parsed cfgT (initialWorld cfgT [])
      (initialWorld cfgT [(cfgT.processedKey, Value.vNum 5)])
      (Value.vNum 5) (Value.vNum 0) (Value.vNum 5) (Value.vNum 0)
      rfl rfl rfl rfl,
    by decide⟩

/-- Witness for C10 at a concrete stored number. -/
theorem load_direct_hit_no_write_witness :
    ∃ w1, load cfgN (initialWorld cfgN [(cfgN.processedKey, Value.vNum 3)]) =
        .ok (Value.vNum 3, w1) ∧
      w1.storage = (initialWorld cfgN [(cfgN.processedKey, Value.vNum 3)]).storage ∧
      w1.events = (initialWorld cfgN [(cfgN.processedKey, Value.vNum 3)]).events ++
        [Event.notified (Value.vNum 3)] :=
  load_direct_hit_no_write cfgN
    (initialWorld cfgN [(cfgN.processedKey, Value.vNum 3)])
    (Value.vNum 3) (Value.vNum 3) rfl rfl rfl

end PStore

